import Mathlib

/-!
Verification of the gophermart reconciliation engine and balance ledger.

The definitions below are a shallow embedding of the Go sources:
  - internal/app/luhn.go               (IsValidLuhn)
  - internal/accrual/updater.go        (per-order reconciliation cycle)
  - the batched accrual updater variant (NewUpdater retry configuration,
    batched settlement through UpdateBalanceFromOrders)
  - the pgx storage layer (Withdraw, AddBalance, UpdateBalanceFromOrders,
    GetUnfinishedOrders, and the SQL statements and CHECK constraints of the
    balance / withdrawal / orders tables).

Monetary amounts are `float64` in the source; every operation performed on
them here is addition, subtraction and order comparison, which we model with
exact rationals (`Rat`).  Each database transaction is modelled as a function
`DB → Except StorageErr DB`: an `.error` result is a rolled-back transaction
(the caller keeps the pre-state), an `.ok` result is the committed state.
-/

namespace Gophermart

abbrev Amount := Rat

/-- Balance row of one user (table `balance`): spendable `current` and
cumulative `withdrawn`, both guarded by `check (... >= 0)` constraints. -/
structure BalanceInfo where
  current : Amount
  withdrawn : Amount
deriving DecidableEq

/-- Order row (table `orders`): primary-key `number` (named `id` as in the Go
struct), owning user, status enum and accrual amount. -/
structure Order where
  id : Int
  userId : Int
  status : String
  accrual : Amount
deriving DecidableEq

/-- Withdrawal row (table `withdrawal`): unique `number`, owning user and the
debited `sum` (guarded by `check (sum >= 0)`). -/
structure Withdrawal where
  number : Int
  userId : Int
  sum : Amount
deriving DecidableEq

/-- Status constants of package `storage`.  The `accrual` package uses the
same strings for INVALID / PROCESSING / PROCESSED, plus REGISTERED. -/
def StatusNew : String := "NEW"

def StatusInvalid : String := "INVALID"

def StatusProcessing : String := "PROCESSING"

def StatusProcessed : String := "PROCESSED"

def StatusRegistered : String := "REGISTERED"

/-- Errors surfaced by the storage layer: `ErrNotEnoughBalance`, plus the two
postgres constraint-violation classes that abort a transaction. -/
inductive StorageErr where
  | notEnoughBalance
  | checkViolation
  | uniqueViolation
deriving DecidableEq

/-- Database state: the orders table, the balance table (at most one row per
user, keyed by `user_id`) and the withdrawal table. -/
structure DB where
  orders : List Order
  balances : Int → Option BalanceInfo
  withdrawals : List Withdrawal

/-- SQL `UpdateOrder`: `update orders set status=$1, accrual=$2 where
number=$3`.  Rows whose key differs are untouched. -/
def execUpdateOrder (db : DB) (status : String) (accrual : Amount) (number : Int) : DB :=
  { db with
    orders := db.orders.map fun r =>
      if r.id = number then { r with status := status, accrual := accrual } else r }

/-- SQL `AddBalance`: `update balance set current = current+$1 where
user_id=$2`.  A row violating `check (current >= 0)` aborts the transaction;
a missing row means the update affects zero rows and succeeds. -/
def execAddBalance (db : DB) (amount : Amount) (userId : Int) : Except StorageErr DB :=
  match db.balances userId with
  | none => .ok db
  | some b =>
      let b2 : BalanceInfo := { current := b.current + amount, withdrawn := b.withdrawn }
      if b2.current < 0 then .error .checkViolation
      else .ok { db with balances := fun u => if u = userId then some b2 else db.balances u }

/-- SQL `SetBalance`: `update balance set current = current-$1,
withdrawn=withdrawn+$1 where user_id=$2`, subject to the two CHECK
constraints of the balance table. -/
def execSetBalance (db : DB) (sum : Amount) (userId : Int) : Except StorageErr DB :=
  match db.balances userId with
  | none => .ok db
  | some b =>
      let b2 : BalanceInfo := { current := b.current - sum, withdrawn := b.withdrawn + sum }
      if b2.current < 0 ∨ b2.withdrawn < 0 then .error .checkViolation
      else .ok { db with balances := fun u => if u = userId then some b2 else db.balances u }

/-- SQL `AddWithdrawal`: `insert into withdrawal (number, user_id, sum) values
($1, $2, $3)`, subject to the unique constraint on `number` and
`check (sum >= 0)`. -/
def execAddWithdrawal (db : DB) (number userId : Int) (sum : Amount) : Except StorageErr DB :=
  if db.withdrawals.any fun w => w.number == number then .error .uniqueViolation
  else if sum < 0 then .error .checkViolation
  else .ok { db with withdrawals := db.withdrawals ++ [{ number := number, userId := userId, sum := sum }] }

/-- SQL `GetUserBalance`: `select current, withdrawn from balance where
user_id = $1`.  When no row matches, the Go caller keeps the zero-valued
`BalanceInfo` struct. -/
def getUserBalance (db : DB) (userId : Int) : BalanceInfo :=
  (db.balances userId).getD { current := 0, withdrawn := 0 }

/-- `GetUnfinishedOrders`: `select ... from orders where status in
('NEW', 'PROCESSING')`. -/
def GetUnfinishedOrders (db : DB) : List Order :=
  db.orders.filter fun o => o.status == StatusNew || o.status == StatusProcessing

/-- `pgxStorage.Withdraw` (single transaction): read the balance, fail with
`ErrNotEnoughBalance` when `current - sum < 0`, otherwise insert the
withdrawal row and apply `SetBalance`; any statement error rolls back. -/
def Withdraw (db : DB) (userId order : Int) (sum : Amount) : Except StorageErr DB :=
  let info := getUserBalance db userId
  if info.current - sum < 0 then .error .notEnoughBalance
  else
    match execAddWithdrawal db order userId sum with
    | .error e => .error e
    | .ok db1 => execSetBalance db1 sum userId

/-- `pgxStorage.AddBalance` (single transaction around the `AddBalance`
statement). -/
def AddBalance (db : DB) (userId : Int) (amount : Amount) : Except StorageErr DB :=
  execAddBalance db amount userId

/-- Accumulated accrual of user `u` over `orders`: the value
`totalAmount[o.UserID] += o.Accrual` computes in `UpdateBalanceFromOrders`. -/
def totalAmount (orders : List Order) (u : Int) : Amount :=
  ((orders.filter fun o => o.userId == u).map fun o => o.accrual).sum

/-- Key set of the `totalAmount` map, in first-occurrence order.  (Go iterates
map keys in unspecified order; a committed settlement's final state does not
depend on that order, so a fixed order is a faithful model.) -/
def creditUsersAux (seen : List Int) : List Order → List Int
  | [] => []
  | o :: rest =>
      if o.userId ∈ seen then creditUsersAux seen rest
      else o.userId :: creditUsersAux (o.userId :: seen) rest

def creditUsers (orders : List Order) : List Int :=
  creditUsersAux [] orders

/-- Second loop of `UpdateBalanceFromOrders`: one `AddBalance` statement per
aggregated user; the first statement error aborts (rolls back) the
transaction. -/
def creditLoop (amt : Int → Amount) (db : DB) : List Int → Except StorageErr DB
  | [] => .ok db
  | u :: rest =>
      match execAddBalance db (amt u) u with
      | .error e => .error e
      | .ok db1 => creditLoop amt db1 rest

/-- `pgxStorage.UpdateBalanceFromOrders` (single transaction): write every
listed order's status/accrual, then add each user's aggregated accrual to its
balance row; any statement error rolls the whole transaction back. -/
def UpdateBalanceFromOrders (db : DB) (orders : List Order) : Except StorageErr DB :=
  if orders.isEmpty then .ok db
  else
    let db1 := orders.foldl (fun d o => execUpdateOrder d o.status o.accrual o.id) db
    creditLoop (totalAmount orders) db1 (creditUsers orders)

/-- Authority response body `{order, status, accrual}` (accrual package). -/
structure orderInfo where
  order : String
  status : String
  accrual : Amount
deriving DecidableEq

/-- Status switch of the reconciliation loop (updater.go lines 92-102):
REGISTERED / PROCESSING map to PROCESSING, INVALID to INVALID, PROCESSED to
PROCESSED with the accrual copied from the verdict; any other verdict status
leaves the order value unchanged (the switch has no default case). -/
def classifyOrder (o : Order) (info : orderInfo) : Order :=
  if info.status = StatusRegistered then { o with status := StatusProcessing }
  else if info.status = StatusInvalid then { o with status := StatusInvalid }
  else if info.status = StatusProcessing then { o with status := StatusProcessing }
  else if info.status = StatusProcessed then { o with status := StatusProcessed, accrual := info.accrual }
  else o

/-- One iteration of the per-order reconciliation loop (updater.go lines
85-114).  `verdict` maps an order number to the authority verdict, `none`
when `getOrderStatus` failed.  `UpdateOrder` commits in its own transaction,
then — when the verdict status is PROCESSED — `AddBalance` commits in a
second, separate transaction whose failure is only logged.  The returned list
records each successfully committed credit as (orderId, userId, amount). -/
def updateOrderStep (verdict : Int → Option orderInfo) (db : DB) (o : Order) :
    DB × List (Int × Int × Amount) :=
  match verdict o.id with
  | none => (db, [])
  | some info =>
      let o2 := classifyOrder o info
      let db1 := execUpdateOrder db o2.status o2.accrual o2.id
      if info.status = StatusProcessed then
        match AddBalance db1 o2.userId o2.accrual with
        | .ok db2 => (db2, [(o2.id, o2.userId, o2.accrual)])
        | .error _ => (db1, [])
      else (db1, [])

/-- Loop-body wrapper threading the database and accumulating the credit
log. -/
def cycleStep (verdict : Int → Option orderInfo)
    (acc : DB × List (Int × Int × Amount)) (o : Order) :
    DB × List (Int × Int × Amount) :=
  let r := updateOrderStep verdict acc.1 o
  (r.1, acc.2 ++ r.2)

/-- One reconciliation cycle of the per-order updater (updater.go `update`):
fetch the unfinished orders once, then run the loop body for each of them,
also returning the log of committed credits. -/
def updateLog (db : DB) (verdict : Int → Option orderInfo) :
    DB × List (Int × Int × Amount) :=
  (GetUnfinishedOrders db).foldl (cycleStep verdict) (db, [])

def update (db : DB) (verdict : Int → Option orderInfo) : DB :=
  (updateLog db verdict).1

/-- Authority HTTP response as seen by the client: status code, the value of
the `Retry-After` header (`Header().Get` yields the empty string when the
header is absent) and the raw body. -/
structure HttpResponse where
  statusCode : Nat
  retryAfterHeader : String
  body : String

/-- Response handling of `getOrderStatus` (updater.go lines 117-136): any
non-200 status surfaces as an error, otherwise the body is JSON-parsed
(parsing abstracted as `parseBody`). -/
def getOrderStatusResult (parseBody : String → Option orderInfo) (resp : HttpResponse) :
    Except String orderInfo :=
  if resp.statusCode ≠ 200 then .error ("bad status code")
  else
    match parseBody resp.body with
    | none => .error ("unmarshal error")
    | some info => .ok info

/-- Decimal string to `int64`, as `strconv.ParseInt(s, 10, 64)`: optional
sign, at least one digit, digits only, result within the int64 range. -/
def parseDigitsAux (acc : Nat) : List Char → Option Nat
  | [] => some acc
  | c :: rest =>
      if c.isDigit then parseDigitsAux (acc * 10 + (c.toNat - '0'.toNat)) rest else none

def parseInt64 (s : String) : Except Unit Int :=
  match s.data with
  | [] => .error ()
  | c :: rest =>
      let signDigits : Bool × List Char :=
        if c = '-' then (true, rest)
        else if c = '+' then (false, rest) else (false, c :: rest)
      match signDigits.2 with
      | [] => .error ()
      | _ :: _ =>
          match parseDigitsAux 0 signDigits.2 with
          | none => .error ()
          | some n =>
              let v : Int := if signDigits.1 then -(n : Int) else (n : Int)
              if v < -(2 ^ 63) ∨ 2 ^ 63 - 1 < v then .error () else .ok v

/-- Reduction of an integer to the signed 64-bit value Go's int64 arithmetic
yields: two's-complement wraparound modulo 2^64. -/
def wrapInt64 (n : Int) : Int :=
  (n + 2 ^ 63) % 2 ^ 64 - 2 ^ 63

/-- Retry-wait function installed by the batched updater's `NewUpdater`
(`SetRetryAfter`): a non-429 response or a missing `Retry-After` header
yields a zero wait, an unparsable header an error, and otherwise the wait
`time.Duration(seconds) * time.Second` in nanoseconds — `time.Duration` is
an int64, so the product `seconds * 1000000000` wraps around in 64-bit
two's complement. -/
def retryAfterFunc (resp : HttpResponse) : Except Unit Int :=
  if resp.statusCode ≠ 429 then .ok 0
  else if resp.retryAfterHeader = "" then .ok 0
  else
    match parseInt64 resp.retryAfterHeader with
    | .error e => .error e
    | .ok seconds => .ok (wrapInt64 (seconds * 1000000000))

/-- Resty client retry configuration extracted by `NewUpdater`. -/
structure RestyClientConfig where
  retryCount : Nat
  hasRetryAfterFunc : Bool

/-- Client of the per-order updater (updater.go line 40): `resty.New()` with
no retry settings; resty's default retry count is 0. -/
def updaterClientConfig : RestyClientConfig :=
  { retryCount := 0, hasRetryAfterFunc := false }

/-- Client of the batched updater variant:
`resty.New().SetRetryAfter(retryFunc).SetRetryCount(3)`. -/
def batchedUpdaterClientConfig : RestyClientConfig :=
  { retryCount := 3, hasRetryAfterFunc := true }

/-- Ledger operations that may hit one user's balance row: a settlement
credit (`AddBalance`) or a withdrawal request (`Withdraw`). -/
inductive LedgerOp where
  | credit (amount : Amount)
  | withdrawOp (number : Int) (amount : Amount)

def applyOp (db : DB) (userId : Int) : LedgerOp → Except StorageErr DB
  | .credit a => AddBalance db userId a
  | .withdrawOp n a => Withdraw db userId n a

/-- Committed state after a sequence of ledger operations: a failed operation
rolls back and leaves the state unchanged. -/
def runOps (db : DB) (userId : Int) : List LedgerOp → DB
  | [] => db
  | op :: rest =>
      match applyOp db userId op with
      | .ok db1 => runOps db1 userId rest
      | .error _ => runOps db userId rest

/-- `IsValidLuhn` (internal/app/luhn.go).  Go iterates the bytes of the
string from last to first; for the ASCII inputs reaching this function each
byte is one character, so the characters are used here, with the `byte`
arithmetic of `number[i] - '0'` and `d * 2` taken modulo 256. -/
def luhnSum : List Nat → Bool → Nat
  | [], _ => 0
  | d :: rest, isSecond =>
      let d2 := if isSecond then d * 2 % 256 else d
      d2 / 10 + d2 % 10 + luhnSum rest (!isSecond)

def IsValidLuhn (number : String) : Bool :=
  let ds := number.data.reverse.map fun c => (c.toNat + 256 - '0'.toNat) % 256
  luhnSum ds false % 10 == 0

/-! Helper lemmas. -/

theorem execAddWithdrawal_no_balance_err (db : DB) (n u : Int) (s : Amount) :
    execAddWithdrawal db n u s ≠ .error .notEnoughBalance := by
  unfold execAddWithdrawal
  split
  · simp
  · split <;> simp

theorem execSetBalance_no_balance_err (db : DB) (s : Amount) (u : Int) :
    execSetBalance db s u ≠ .error .notEnoughBalance := by
  unfold execSetBalance
  split
  · simp
  · dsimp only
    split <;> simp

/-! Claim theorems. -/

/-- C10: the order-number checksum validator accepts the empty string: on
input "" the loop body never executes, the sum is 0 and 0 mod 10 = 0, so
`IsValidLuhn` returns `true`. -/
theorem c10_luhn_accepts_empty : IsValidLuhn ("") = true := by decide

/-- C4: `Withdraw` fails with `ErrNotEnoughBalance` exactly when the user's
current balance is below the requested amount (an `.error` result is a rolled
back transaction, so the balance row and withdrawal table are unchanged in
that case); otherwise — for a fresh withdrawal number and a non-negative
amount, with the stored cumulative `withdrawn` non-negative — the single
transaction commits: the withdrawal row is appended, `current` decreases by
the amount and `withdrawn` increases by it, with no other state touched. -/
theorem c4_withdraw_exact (db : DB) (userId n : Int) (sum : Amount) :
    (Withdraw db userId n sum = .error .notEnoughBalance ↔
      (getUserBalance db userId).current < sum) ∧
    (∀ b, db.balances userId = some b → 0 ≤ b.withdrawn → 0 ≤ sum →
      ¬ b.current < sum → (∀ w ∈ db.withdrawals, w.number ≠ n) →
      ∃ db1, Withdraw db userId n sum = .ok db1 ∧
        db1.withdrawals = db.withdrawals ++ [{ number := n, userId := userId, sum := sum }] ∧
        db1.balances userId = some { current := b.current - sum, withdrawn := b.withdrawn + sum } ∧
        (∀ u, u ≠ userId → db1.balances u = db.balances u) ∧
        db1.orders = db.orders) := by
  constructor
  · constructor
    · intro h
      by_contra hge
      rw [not_lt] at hge
      simp only [Withdraw] at h
      rw [if_neg (by rw [sub_neg]; exact not_lt.mpr hge)] at h
      cases hW : execAddWithdrawal db n userId sum with
      | error e =>
          rw [hW] at h
          cases h
          exact execAddWithdrawal_no_balance_err db n userId sum hW
      | ok db1 =>
          rw [hW] at h
          exact execSetBalance_no_balance_err db1 sum userId h
    · intro hlt
      simp only [Withdraw]
      rw [if_pos (sub_neg.mpr hlt)]
  · intro b hb hw hs hlt hfresh
    have hgb : getUserBalance db userId = b := by
      simp [getUserBalance, hb]
    refine ⟨{ orders := db.orders,
              balances := fun u => if u = userId then
                  some { current := b.current - sum, withdrawn := b.withdrawn + sum }
                else db.balances u,
              withdrawals := db.withdrawals ++ [{ number := n, userId := userId, sum := sum }] },
            ?_, rfl, ?_, ?_, rfl⟩
    · simp only [Withdraw, hgb]
      rw [if_neg (by rw [sub_neg]; exact hlt)]
      have hany : (db.withdrawals.any fun w => w.number == n) = false := by
        simp only [List.any_eq_false]
        intro w hwmem
        simpa using hfresh w hwmem
      simp only [execAddWithdrawal, hany]
      rw [if_neg (not_lt.mpr hs)]
      show execSetBalance _ sum userId = _
      simp only [execSetBalance]
      rw [hb]
      dsimp only
      rw [if_neg (by
        push_neg
        exact ⟨sub_nonneg.mpr (not_lt.mp hlt), add_nonneg hw hs⟩)]
    · simp
    · intro u hu
      simp [hu]

/-- C8 counterexample: the per-order updater builds its client with
`resty.New()` and no retry configuration (retry count 0, no Retry-After
function), and `getOrderStatus` turns a 429 response — here carrying
`Retry-After: 2` and a parseable body — into an immediate error: the first
rate-limit encounter is a hard failure for that query, with no wait and no
re-issue. -/
theorem c8_counterexample :
    updaterClientConfig.retryCount = 0 ∧
    updaterClientConfig.hasRetryAfterFunc = false ∧
    getOrderStatusResult
      (fun _ => some { order := "1", status := StatusProcessed, accrual := 5 })
      { statusCode := 429, retryAfterHeader := "2", body := "{}" } =
      .error ("bad status code") := by
  refine ⟨rfl, rfl, rfl⟩

theorem wrapInt64_eq_self (n : Int) (h1 : -(2 ^ 63) ≤ n) (h2 : n < 2 ^ 63) :
    wrapInt64 n = n := by
  unfold wrapInt64
  have hpow : (2 : Int) ^ 64 = 2 ^ 63 + 2 ^ 63 := by norm_num
  rw [Int.emod_eq_of_lt (by linarith) (by linarith)]
  ring

/-- C8 (amended): the batched updater variant configures its client with a
retry ceiling of 3 attempts and a Retry-After backoff function which, for a
429 response, computes the wait `time.Duration(seconds) * time.Second`:
zero when the header is absent, the parse error when the header is
unparsable, and otherwise the int64-wrapped product `seconds * 1000000000`
nanoseconds — exactly `seconds` seconds whenever that product fits in
int64, a wrapped duration for larger headers; non-429 responses get a zero
wait.  The current per-order variant configures no retries, so a 429
surfaces as an error on the first attempt (`c8_counterexample`). -/
theorem c8_retry_configuration (resp : HttpResponse) :
    batchedUpdaterClientConfig.retryCount = 3 ∧
    batchedUpdaterClientConfig.hasRetryAfterFunc = true ∧
    (resp.statusCode ≠ 429 → retryAfterFunc resp = .ok 0) ∧
    (resp.statusCode = 429 → resp.retryAfterHeader = "" → retryAfterFunc resp = .ok 0) ∧
    (∀ e, resp.statusCode = 429 → resp.retryAfterHeader ≠ "" →
      parseInt64 resp.retryAfterHeader = .error e → retryAfterFunc resp = .error e) ∧
    (∀ seconds, resp.statusCode = 429 →
      parseInt64 resp.retryAfterHeader = .ok seconds →
      retryAfterFunc resp = .ok (wrapInt64 (seconds * 1000000000)) ∧
      (-(2 ^ 63) ≤ seconds * 1000000000 → seconds * 1000000000 < 2 ^ 63 →
        retryAfterFunc resp = .ok (seconds * 1000000000))) := by
  refine ⟨rfl, rfl, ?_, ?_, ?_, ?_⟩
  · intro hne
    simp [retryAfterFunc, hne]
  · intro h429 hempty
    simp [retryAfterFunc, h429, hempty]
  · intro e h429 hne hparse
    simp [retryAfterFunc, h429, hne, hparse]
  · intro seconds h429 hparse
    have hne : resp.retryAfterHeader ≠ "" := by
      intro hempty
      rw [hempty] at hparse
      exact Except.noConfusion hparse
    constructor
    · simp [retryAfterFunc, h429, hne, hparse]
    · intro hlo hhi
      rw [← wrapInt64_eq_self (seconds * 1000000000) hlo hhi]
      simp [retryAfterFunc, h429, hne, hparse]

/-- Witness for `c8_retry_configuration`: a 429 response with `Retry-After: 2`
yields a configured wait of exactly 2 seconds (2000000000 nanoseconds, which
fits in int64), and a 429 with an unparsable `Retry-After` surfaces the
parse error. -/
theorem c8_retry_configuration_witness :
    retryAfterFunc { statusCode := 429, retryAfterHeader := "2", body := "" } =
      .ok 2000000000 ∧
    retryAfterFunc { statusCode := 429, retryAfterHeader := "soon", body := "" } =
      .error () := by
  constructor
  · have h := ((c8_retry_configuration
        { statusCode := 429, retryAfterHeader := "2", body := "" }).2.2.2.2.2 2 rfl rfl).2
      (by norm_num) (by norm_num)
    rw [show (2 : Int) * 1000000000 = 2000000000 by norm_num] at h
    exact h
  · exact (c8_retry_configuration
      { statusCode := 429, retryAfterHeader := "soon", body := "" }).2.2.2.2.1 ()
      rfl (by decide) rfl

/-- Balance row of 50 points for user 7, as in the withdraw scenario. -/
def dbFifty : DB :=
  { orders := [],
    balances := fun u => if u = 7 then some { current := 50, withdrawn := 0 } else none,
    withdrawals := [] }

/-- Witness for `c4_withdraw_exact`: withdrawing 100 from a balance of 50
fails with the insufficient-balance error, while withdrawing 30 commits the
withdrawal row and leaves current 20 / withdrawn 30. -/
theorem c4_withdraw_exact_witness :
    Withdraw dbFifty 7 99 100 = .error .notEnoughBalance ∧
    ∃ db1, Withdraw dbFifty 7 99 30 = .ok db1 ∧
      db1.withdrawals = [{ number := 99, userId := 7, sum := 30 }] ∧
      db1.balances 7 = some { current := 20, withdrawn := 30 } := by
  constructor
  · exact (c4_withdraw_exact dbFifty 7 99 100).1.mpr (by norm_num [getUserBalance, dbFifty])
  · obtain ⟨db1, hok, hwd, hbal, -, -⟩ :=
      (c4_withdraw_exact dbFifty 7 99 30).2 { current := 50, withdrawn := 0 }
        (by norm_num [dbFifty]) (by norm_num) (by norm_num) (by norm_num)
        (by simp [dbFifty])
    refine ⟨db1, hok, by simpa [dbFifty] using hwd, ?_⟩
    rw [hbal]
    norm_num

theorem applyOp_current_nonneg (db : DB) (userId : Int) (op : LedgerOp) (db1 : DB)
    (h : applyOp db userId op = .ok db1)
    (h0 : 0 ≤ (getUserBalance db userId).current) :
    0 ≤ (getUserBalance db1 userId).current := by
  cases op with
  | credit a =>
      simp only [applyOp, AddBalance, execAddBalance] at h
      cases hb : db.balances userId with
      | none =>
          rw [hb] at h
          cases h
          exact h0
      | some b =>
          rw [hb] at h
          dsimp only at h
          split at h
          · exact absurd h (by simp)
          next hcond =>
            cases h
            simpa [getUserBalance] using not_lt.mp hcond
  | withdrawOp n a =>
      simp only [applyOp, Withdraw] at h
      split at h
      · exact absurd h (by simp)
      next hge =>
        cases hW : execAddWithdrawal db n userId a with
        | error e =>
            rw [hW] at h
            exact absurd h (by simp)
        | ok dbA =>
            rw [hW] at h
            have hAbal : dbA.balances = db.balances := by
              simp only [execAddWithdrawal] at hW
              split at hW
              · exact absurd hW (by simp)
              · split at hW
                · exact absurd hW (by simp)
                · cases hW; rfl
            simp only [execSetBalance, hAbal] at h
            cases hb : db.balances userId with
            | none =>
                rw [hb] at h
                cases h
                simp [getUserBalance, hAbal, hb]
            | some b =>
                rw [hb] at h
                dsimp only at h
                split at h
                · exact absurd h (by simp)
                next hcond =>
                  cases h
                  have := (not_or.mp hcond).1
                  simpa [getUserBalance] using not_lt.mp this

theorem runOps_current_nonneg (ops : List LedgerOp) (db : DB) (userId : Int)
    (h0 : 0 ≤ (getUserBalance db userId).current) :
    0 ≤ (getUserBalance (runOps db userId ops) userId).current := by
  induction ops generalizing db with
  | nil => exact h0
  | cons op rest ih =>
      simp only [runOps]
      cases hap : applyOp db userId op with
      | ok db1 => exact ih db1 (applyOp_current_nonneg db userId op db1 hap h0)
      | error e => exact ih db h0

/-- C2: starting from the zero balance row created together with the user,
the user's current balance is at least 0 after every committed ledger
operation — the operation list here is arbitrary, so every prefix of a
withdraw/credit sequence (and hence every intermediate committed state) is
covered; failed operations roll back and commit nothing. -/
theorem c2_balance_never_negative (db : DB) (userId : Int) (ops : List LedgerOp)
    (h0 : db.balances userId = some { current := 0, withdrawn := 0 }) :
    0 ≤ (getUserBalance (runOps db userId ops) userId).current :=
  runOps_current_nonneg ops db userId (by simp [getUserBalance, h0])

/-- Fresh user 7 with the zero balance row the user-creation trigger
inserts. -/
def dbZero : DB :=
  { orders := [],
    balances := fun u => if u = 7 then some { current := 0, withdrawn := 0 } else none,
    withdrawals := [] }

/-- Witness for `c2_balance_never_negative`: credit 100, withdraw 30,
attempt an overdraw of 200 (fails), withdraw 70 — the final committed
balance is still non-negative. -/
theorem c2_balance_never_negative_witness :
    0 ≤ (getUserBalance
      (runOps dbZero 7
        [LedgerOp.credit 100, LedgerOp.withdrawOp 1 30,
         LedgerOp.withdrawOp 2 200, LedgerOp.withdrawOp 3 70]) 7).current :=
  c2_balance_never_negative dbZero 7 _ (by norm_num [dbZero])

/-- C7: the classifier maps REGISTERED and PROCESSING to `Processing` with
the stored accrual untouched (so it stays 0 for an order that had none) and
no credit, INVALID to `Invalid` with no credit, and PROCESSED to `Processed`
with the accrual copied from the verdict and — when the balance update
commits — the owning user's current balance raised by exactly that amount,
recorded as the single credit of that loop iteration. -/
theorem c7_verdict_classification (db : DB) (o : Order) (info : orderInfo)
    (verdict : Int → Option orderInfo) (hv : verdict o.id = some info) :
    ((info.status = StatusRegistered ∨ info.status = StatusProcessing) →
      classifyOrder o info = { o with status := StatusProcessing } ∧
      (updateOrderStep verdict db o).2 = [] ∧
      (updateOrderStep verdict db o).1.balances = db.balances) ∧
    (info.status = StatusInvalid →
      classifyOrder o info = { o with status := StatusInvalid } ∧
      (updateOrderStep verdict db o).2 = [] ∧
      (updateOrderStep verdict db o).1.balances = db.balances) ∧
    (info.status = StatusProcessed →
      classifyOrder o info = { o with status := StatusProcessed, accrual := info.accrual } ∧
      ∀ b, db.balances o.userId = some b → 0 ≤ b.current + info.accrual →
        (getUserBalance (updateOrderStep verdict db o).1 o.userId).current =
          b.current + info.accrual ∧
        (updateOrderStep verdict db o).2 = [(o.id, o.userId, info.accrual)]) := by
  refine ⟨?_, ?_, ?_⟩
  · rintro (hst | hst) <;>
      exact ⟨by
          simp [classifyOrder, hst, StatusRegistered, StatusProcessing,
            StatusInvalid, StatusProcessed],
        by
          simp only [updateOrderStep, hv]
          rw [if_neg (by simp [hst, StatusRegistered, StatusProcessing, StatusProcessed])],
        by
          simp only [updateOrderStep, hv]
          rw [if_neg (by simp [hst, StatusRegistered, StatusProcessing, StatusProcessed])]
          rfl⟩
  · intro hst
    exact ⟨by
        simp [classifyOrder, hst, StatusRegistered, StatusProcessing,
          StatusInvalid, StatusProcessed],
      by
        simp only [updateOrderStep, hv]
        rw [if_neg (by simp [hst, StatusInvalid, StatusProcessed])],
      by
        simp only [updateOrderStep, hv]
        rw [if_neg (by simp [hst, StatusInvalid, StatusProcessed])]
        rfl⟩
  · intro hst
    have hcl : classifyOrder o info =
        { o with status := StatusProcessed, accrual := info.accrual } := by
      simp [classifyOrder, hst, StatusRegistered, StatusProcessing,
        StatusInvalid, StatusProcessed]
    refine ⟨hcl, ?_⟩
    intro b hb hnn
    simp only [updateOrderStep, hv, hcl]
    rw [if_pos hst]
    have hb1 : (execUpdateOrder db StatusProcessed info.accrual o.id).balances =
        db.balances := rfl
    simp only [AddBalance, execAddBalance, hb1, hb]
    rw [if_neg (not_lt.mpr hnn)]
    exact ⟨by simp [getUserBalance], rfl⟩

/-- Order 79927398713 of user 7, freshly registered. -/
def orderSeven : Order :=
  { id := 79927398713, userId := 7, status := StatusNew, accrual := 0 }

def dbSeven : DB :=
  { orders := [orderSeven],
    balances := fun u => if u = 7 then some { current := 0, withdrawn := 0 } else none,
    withdrawals := [] }

def infoRegistered : orderInfo :=
  { order := "79927398713", status := StatusRegistered, accrual := 0 }

def infoProcessed : orderInfo :=
  { order := "79927398713", status := StatusProcessed, accrual := 500 }

/-- Witness for `c7_verdict_classification`: the REGISTERED verdict for
checksum-valid order 79927398713 classifies to Processing with the balance
untouched, and a PROCESSED verdict with accrual 500 raises the owner's
balance by exactly 500 with a single recorded credit. -/
theorem c7_verdict_classification_witness :
    classifyOrder orderSeven infoRegistered = { orderSeven with status := StatusProcessing } ∧
    (updateOrderStep (fun _ => some infoRegistered) dbSeven orderSeven).1.balances =
      dbSeven.balances ∧
    (getUserBalance (updateOrderStep (fun _ => some infoProcessed) dbSeven orderSeven).1
      orderSeven.userId).current = 500 ∧
    (updateOrderStep (fun _ => some infoProcessed) dbSeven orderSeven).2 =
      [(79927398713, 7, 500)] := by
  have h1 := (c7_verdict_classification dbSeven orderSeven infoRegistered
    (fun _ => some infoRegistered) rfl).1 (Or.inl rfl)
  have h3 := ((c7_verdict_classification dbSeven orderSeven infoProcessed
    (fun _ => some infoProcessed) rfl).2.2 rfl).2 { current := 0, withdrawn := 0 }
    (by norm_num [dbSeven, orderSeven]) (by norm_num [infoProcessed])
  refine ⟨h1.1, h1.2.2, ?_, ?_⟩
  · rw [h3.1]
    norm_num [infoProcessed]
  · simpa [orderSeven, infoProcessed] using h3.2

/-! Lemmas about the batched settlement transaction. -/

theorem execAddBalance_ok_tables (db : DB) (a : Amount) (u : Int) (db1 : DB)
    (h : execAddBalance db a u = .ok db1) :
    db1.orders = db.orders ∧ db1.withdrawals = db.withdrawals := by
  simp only [execAddBalance] at h
  cases hb : db.balances u with
  | none =>
      rw [hb] at h
      cases h
      exact ⟨rfl, rfl⟩
  | some b =>
      rw [hb] at h
      dsimp only at h
      split at h
      · exact absurd h (by simp)
      · cases h
        exact ⟨rfl, rfl⟩

theorem execAddBalance_ok_other (db : DB) (a : Amount) (u : Int) (db1 : DB)
    (h : execAddBalance db a u = .ok db1) (v : Int) (hv : v ≠ u) :
    db1.balances v = db.balances v := by
  simp only [execAddBalance] at h
  cases hb : db.balances u with
  | none =>
      rw [hb] at h
      cases h
      rfl
  | some b =>
      rw [hb] at h
      dsimp only at h
      split at h
      · exact absurd h (by simp)
      · cases h
        simp [hv]

theorem execAddBalance_ok_self (db : DB) (a : Amount) (u : Int) (db1 : DB) (b : BalanceInfo)
    (h : execAddBalance db a u = .ok db1) (hb : db.balances u = some b) :
    db1.balances u = some { current := b.current + a, withdrawn := b.withdrawn } := by
  simp only [execAddBalance] at h
  rw [hb] at h
  dsimp only at h
  split at h
  · exact absurd h (by simp)
  · cases h
    simp

theorem creditLoop_ok_tables (amt : Int → Amount) :
    ∀ (us : List Int) (db db2 : DB), creditLoop amt db us = .ok db2 →
      db2.orders = db.orders ∧ db2.withdrawals = db.withdrawals := by
  intro us
  induction us with
  | nil =>
      intro db db2 h
      cases h
      exact ⟨rfl, rfl⟩
  | cons u rest ih =>
      intro db db2 h
      simp only [creditLoop] at h
      cases hA : execAddBalance db (amt u) u with
      | error e =>
          rw [hA] at h
          exact absurd h (by simp)
      | ok dbA =>
          rw [hA] at h
          obtain ⟨h1, h2⟩ := ih dbA db2 h
          obtain ⟨h3, h4⟩ := execAddBalance_ok_tables db (amt u) u dbA hA
          exact ⟨h1.trans h3, h2.trans h4⟩

theorem creditLoop_ok_other (amt : Int → Amount) :
    ∀ (us : List Int) (v : Int), v ∉ us → ∀ (db db2 : DB),
      creditLoop amt db us = .ok db2 → db2.balances v = db.balances v := by
  intro us
  induction us with
  | nil =>
      intro v _ db db2 h
      cases h
      rfl
  | cons u rest ih =>
      intro v hv db db2 h
      simp only [creditLoop] at h
      cases hA : execAddBalance db (amt u) u with
      | error e =>
          rw [hA] at h
          exact absurd h (by simp)
      | ok dbA =>
          rw [hA] at h
          have hvr : v ∉ rest := fun hm => hv (List.mem_cons_of_mem _ hm)
          have hvu : v ≠ u := fun he => hv (he ▸ List.mem_cons_self _ _)
          rw [ih v hvr dbA db2 h]
          exact execAddBalance_ok_other db (amt u) u dbA hA v hvu

theorem creditLoop_ok_mem (amt : Int → Amount) :
    ∀ (us : List Int), us.Nodup → ∀ u, u ∈ us → ∀ (db db2 : DB) (b : BalanceInfo),
      creditLoop amt db us = .ok db2 → db.balances u = some b →
      db2.balances u = some { current := b.current + amt u, withdrawn := b.withdrawn } := by
  intro us
  induction us with
  | nil =>
      intro _ u hu
      cases hu
  | cons v rest ih =>
      intro hnd u hu db db2 b h hb
      simp only [creditLoop] at h
      cases hA : execAddBalance db (amt v) v with
      | error e =>
          rw [hA] at h
          exact absurd h (by simp)
      | ok dbA =>
          rw [hA] at h
          rcases List.mem_cons.mp hu with he | hm
          · subst he
            have hself := execAddBalance_ok_self db (amt u) u dbA b hA hb
            have hrest : u ∉ rest := (List.nodup_cons.mp hnd).1
            rw [creditLoop_ok_other amt rest u hrest dbA db2 h]
            exact hself
          · have hvne : u ≠ v := by
              rintro rfl
              exact (List.nodup_cons.mp hnd).1 hm
            have hbA : dbA.balances u = some b := by
              rw [execAddBalance_ok_other db (amt v) v dbA hA u hvne]
              exact hb
            exact ih (List.nodup_cons.mp hnd).2 u hm dbA db2 b h hbA

theorem creditUsersAux_mem :
    ∀ (l : List Order) (seen : List Int) (u : Int),
      u ∈ creditUsersAux seen l ↔ (∃ o ∈ l, o.userId = u) ∧ u ∉ seen := by
  intro l
  induction l with
  | nil => simp [creditUsersAux]
  | cons o rest ih =>
      intro seen u
      simp only [creditUsersAux]
      split
      next hin =>
        rw [ih]
        constructor
        · rintro ⟨⟨o1, ho1, rfl⟩, hns⟩
          exact ⟨⟨o1, List.mem_cons_of_mem _ ho1, rfl⟩, hns⟩
        · rintro ⟨⟨o1, ho1, rfl⟩, hns⟩
          rcases List.mem_cons.mp ho1 with rfl | hm
          · exact absurd hin hns
          · exact ⟨⟨o1, hm, rfl⟩, hns⟩
      next hout =>
        constructor
        · intro hmem
          rcases List.mem_cons.mp hmem with rfl | hm
          · exact ⟨⟨o, List.mem_cons_self _ _, rfl⟩, hout⟩
          · obtain ⟨⟨o1, ho1, rfl⟩, hns⟩ := (ih _ _).mp hm
            exact ⟨⟨o1, List.mem_cons_of_mem _ ho1, rfl⟩,
              fun hseen => hns (List.mem_cons_of_mem _ hseen)⟩
        · rintro ⟨⟨o1, ho1, rfl⟩, hns⟩
          by_cases heq : o1.userId = o.userId
          · exact heq ▸ List.mem_cons_self _ _
          · rcases List.mem_cons.mp ho1 with rfl | hm
            · exact absurd rfl heq
            · refine List.mem_cons_of_mem _ ((ih _ _).mpr ⟨⟨o1, hm, rfl⟩, ?_⟩)
              intro hseen
              rcases List.mem_cons.mp hseen with he | hs
              · exact heq he
              · exact hns hs

theorem creditUsersAux_nodup :
    ∀ (l : List Order) (seen : List Int), (creditUsersAux seen l).Nodup := by
  intro l
  induction l with
  | nil => intro seen; simp [creditUsersAux]
  | cons o rest ih =>
      intro seen
      simp only [creditUsersAux]
      split
      · exact ih seen
      · refine List.nodup_cons.mpr ⟨?_, ih _⟩
        intro hmem
        have := ((creditUsersAux_mem rest (o.userId :: seen) o.userId).mp hmem).2
        exact this (List.mem_cons_self _ _)

theorem creditUsers_mem (orders : List Order) (u : Int) :
    u ∈ creditUsers orders ↔ ∃ o ∈ orders, o.userId = u := by
  rw [creditUsers, creditUsersAux_mem]
  simp

theorem creditUsers_nodup (orders : List Order) : (creditUsers orders).Nodup :=
  creditUsersAux_nodup orders []

theorem totalAmount_eq_zero (orders : List Order) (u : Int)
    (h : ¬ ∃ o ∈ orders, o.userId = u) : totalAmount orders u = 0 := by
  have hfil : orders.filter (fun o => o.userId == u) = [] := by
    rw [List.filter_eq_nil_iff]
    intro o ho
    simp only [beq_iff_eq]
    exact fun he => h ⟨o, ho, he⟩
  simp [totalAmount, hfil]

/-- Pointwise effect of the settlement's first loop on one order row. -/
def applyUpdates (us : List Order) (r : Order) : Order :=
  us.foldl (fun r u =>
    if r.id = u.id then { r with status := u.status, accrual := u.accrual } else r) r

theorem updateFold_tables (us : List Order) :
    ∀ db : DB,
      ((us.foldl (fun d o => execUpdateOrder d o.status o.accrual o.id) db).balances =
        db.balances) ∧
      ((us.foldl (fun d o => execUpdateOrder d o.status o.accrual o.id) db).withdrawals =
        db.withdrawals) := by
  induction us with
  | nil => intro db; exact ⟨rfl, rfl⟩
  | cons u rest ih =>
      intro db
      rw [List.foldl_cons]
      exact ih (execUpdateOrder db u.status u.accrual u.id)

theorem updateFold_orders (us : List Order) :
    ∀ db : DB,
      (us.foldl (fun d o => execUpdateOrder d o.status o.accrual o.id) db).orders =
        db.orders.map (applyUpdates us) := by
  induction us with
  | nil =>
      intro db
      exact (List.map_id db.orders).symm
  | cons u rest ih =>
      intro db
      rw [List.foldl_cons, ih]
      show (db.orders.map _).map (applyUpdates rest) = _
      rw [List.map_map]
      rfl

theorem applyUpdates_cons (u : Order) (rest : List Order) (r : Order) :
    applyUpdates (u :: rest) r =
      applyUpdates rest
        (if r.id = u.id then { r with status := u.status, accrual := u.accrual } else r) :=
  rfl

theorem applyUpdates_id (us : List Order) :
    ∀ r : Order, (applyUpdates us r).id = r.id := by
  induction us with
  | nil => intro r; rfl
  | cons u rest ih =>
      intro r
      rw [applyUpdates_cons, ih]
      split <;> rfl

theorem applyUpdates_skip (us : List Order) :
    ∀ r : Order, (∀ u ∈ us, u.id ≠ r.id) → applyUpdates us r = r := by
  induction us with
  | nil => intro r _; rfl
  | cons u rest ih =>
      intro r hne
      rw [applyUpdates_cons, if_neg fun he => hne u (List.mem_cons_self _ _) he.symm]
      exact ih r fun v hv => hne v (List.mem_cons_of_mem _ hv)

theorem applyUpdates_write (us : List Order) :
    ∀ o ∈ us, (us.map fun v => v.id).Nodup →
      ∀ r : Order, r.id = o.id →
        (applyUpdates us r).status = o.status ∧ (applyUpdates us r).accrual = o.accrual := by
  induction us with
  | nil => intro o ho; cases ho
  | cons u rest ih =>
      intro o ho hnd r hid
      rw [List.map_cons] at hnd
      obtain ⟨hhead, htail⟩ := List.nodup_cons.mp hnd
      rw [applyUpdates_cons]
      rcases List.mem_cons.mp ho with rfl | hm
      · rw [if_pos hid]
        have hnotin : ∀ v ∈ rest,
            v.id ≠ ({ r with status := o.status, accrual := o.accrual } : Order).id := by
          intro v hv he
          have hvo : v.id = o.id := by
            rw [show ({ r with status := o.status, accrual := o.accrual } : Order).id = r.id
              from rfl] at he
            rw [he, hid]
          exact hhead (hvo ▸ List.mem_map_of_mem (fun v => v.id) hv)
        rw [applyUpdates_skip rest _ hnotin]
        exact ⟨rfl, rfl⟩
      · have hune : u.id ≠ o.id := by
          intro he
          refine hhead ?_
          rw [he]
          exact List.mem_map_of_mem (fun v => v.id) hm
        rw [if_neg fun he => hune (he.symm.trans hid)]
        exact ih o hm htail r hid

theorem creditLoop_exists_ok (amt : Int → Amount) :
    ∀ us : List Int, us.Nodup →
      ∀ db : DB, (∀ u ∈ us, ∀ b, db.balances u = some b → 0 ≤ b.current + amt u) →
      ∃ db2, creditLoop amt db us = .ok db2 := by
  intro us
  induction us with
  | nil =>
      intro _ db _
      exact ⟨db, rfl⟩
  | cons u rest ih =>
      intro hnd db hcond
      obtain ⟨hnotin, hndr⟩ := List.nodup_cons.mp hnd
      cases hbu : db.balances u with
      | none =>
          have hA : execAddBalance db (amt u) u = .ok db := by
            simp [execAddBalance, hbu]
          obtain ⟨db2, h2⟩ := ih hndr db fun v hv b hb =>
            hcond v (List.mem_cons_of_mem _ hv) b hb
          refine ⟨db2, ?_⟩
          simp only [creditLoop, hA]
          exact h2
      | some b =>
          have hA : execAddBalance db (amt u) u = .ok
              { db with balances := fun v =>
                  if v = u then some (BalanceInfo.mk (b.current + amt u) b.withdrawn)
                  else db.balances v } := by
            simp only [execAddBalance]
            rw [hbu]
            dsimp only
            rw [if_neg (not_lt.mpr (hcond u (List.mem_cons_self _ _) b hbu))]
          obtain ⟨db2, h2⟩ := ih hndr
            { db with balances := fun v =>
                if v = u then some (BalanceInfo.mk (b.current + amt u) b.withdrawn)
                else db.balances v }
            (fun v hv bv hbv => by
              have hvne : v ≠ u := fun he => hnotin (he ▸ hv)
              apply hcond v (List.mem_cons_of_mem _ hv) bv
              simpa [hvne] using hbv)
          refine ⟨db2, ?_⟩
          simp only [creditLoop, hA]
          exact h2

/-- The settlement transaction commits whenever crediting each aggregated
user keeps that user's balance non-negative. -/
theorem UpdateBalanceFromOrders_exists_ok (db : DB) (orders : List Order)
    (hcond : ∀ u ∈ creditUsers orders, ∀ b, db.balances u = some b →
      0 ≤ b.current + totalAmount orders u) :
    ∃ db2, UpdateBalanceFromOrders db orders = .ok db2 := by
  by_cases hemp : orders.isEmpty = true
  · refine ⟨db, ?_⟩
    unfold UpdateBalanceFromOrders
    rw [if_pos hemp]
  · unfold UpdateBalanceFromOrders
    rw [if_neg hemp]
    dsimp only
    apply creditLoop_exists_ok (totalAmount orders) (creditUsers orders)
      (creditUsers_nodup orders)
    intro u hu b hb
    rw [(updateFold_tables orders db).1] at hb
    exact hcond u hu b hb

/-- Order 1 of user 7, freshly registered. -/
def orderNeg : Order := { id := 1, userId := 7, status := StatusNew, accrual := 0 }

/-- Order 1 of user 7, freshly registered, with the user's zero balance
row. -/
def dbPerOrder : DB :=
  { orders := [orderNeg],
    balances := fun u => if u = 7 then some { current := 0, withdrawn := 0 } else none,
    withdrawals := [] }

/-- State of `dbPerOrder` after the cycle's `UpdateOrder` transaction has
committed status PROCESSED / accrual -100 for order 1. -/
def dbPerOrderUpd : DB :=
  { orders := [{ id := 1, userId := 7, status := StatusProcessed, accrual := -100 }],
    balances := dbPerOrder.balances,
    withdrawals := [] }

/-- Authority answers PROCESSED with accrual -100 (the parsed accrual value
is never validated). -/
def verdictNegativeAccrual : Int → Option orderInfo :=
  fun _ => some { order := "1", status := StatusProcessed, accrual := -100 }

/-- C1 counterexample: the per-order updater (updater.go) commits the order
status in one transaction and the balance credit in a second, separate one,
so a cycle is not all-or-nothing.  Concretely: the authority answers
PROCESSED with accrual -100 for order 1 of user 7 (whose balance is 0); the
`UpdateOrder` transaction commits status PROCESSED / accrual -100, then the
`AddBalance` transaction violates the balance table's `current >= 0` CHECK
and rolls back (the error is only logged).  The committed state has the
order Processed while its balance credit is missing, and the credit log of
the cycle is empty — a partial application the claim rules out. -/
theorem c1_counterexample :
    ((update dbPerOrder verdictNegativeAccrual).orders.map
        fun o => (o.id, o.status, o.accrual)) = [(1, StatusProcessed, -100)] ∧
    getUserBalance (update dbPerOrder verdictNegativeAccrual) 7 =
      getUserBalance dbPerOrder 7 ∧
    (updateLog dbPerOrder verdictNegativeAccrual).2 = [] := by
  have haddfail : AddBalance dbPerOrderUpd 7 (-100) = .error .checkViolation := by
    show execAddBalance dbPerOrderUpd (-100) 7 = _
    simp only [execAddBalance]
    rw [show dbPerOrderUpd.balances 7 = some { current := 0, withdrawn := 0 } from rfl]
    dsimp only
    rw [if_pos (by norm_num)]
  have hstep : updateOrderStep verdictNegativeAccrual dbPerOrder orderNeg =
      (match AddBalance dbPerOrderUpd 7 (-100) with
        | .ok db2 => (db2, [((1 : Int), (7 : Int), (-100 : Amount))])
        | .error _ => (dbPerOrderUpd, [])) := rfl
  have hcs : cycleStep verdictNegativeAccrual (dbPerOrder, []) orderNeg =
      (dbPerOrderUpd, []) := by
    simp only [cycleStep]
    rw [hstep, haddfail]
    rfl
  have hlog : updateLog dbPerOrder verdictNegativeAccrual = (dbPerOrderUpd, []) := by
    show (GetUnfinishedOrders dbPerOrder).foldl (cycleStep verdictNegativeAccrual)
      (dbPerOrder, []) = _
    rw [show GetUnfinishedOrders dbPerOrder = [orderNeg] from rfl,
      List.foldl_cons, List.foldl_nil, hcs]
  refine ⟨?_, ?_, ?_⟩
  · show ((updateLog dbPerOrder verdictNegativeAccrual).1.orders.map
      fun o => (o.id, o.status, o.accrual)) = _
    rw [hlog]
    rfl
  · show getUserBalance (updateLog dbPerOrder verdictNegativeAccrual).1 7 = _
    rw [hlog]
    rfl
  · rw [hlog]

/-- C1 (amended): the batched settlement transaction
`UpdateBalanceFromOrders` is all-or-nothing for the cycle's settled orders:
when it commits, every listed order's status/accrual is written and every
user's balance is raised by exactly that user's aggregated accrual (zero
change and zero aggregate for everyone else), with the withdrawal table
untouched; when any statement fails the whole transaction rolls back (an
`.error` result leaves the caller's state unchanged by construction).  The
per-order updater variant instead commits each `UpdateOrder` and each
`AddBalance` in separate transactions, so an order can be committed
Processed while its credit is missing (`c1_counterexample`). -/
theorem c1_settlement_all_or_nothing (db : DB) (orders : List Order) (db2 : DB)
    (h : UpdateBalanceFromOrders db orders = .ok db2)
    (hids : (orders.map fun o => o.id).Nodup)
    (hrows : ∀ o ∈ orders, (db.balances o.userId).isSome) :
    (∀ u, (getUserBalance db2 u).current =
      (getUserBalance db u).current + totalAmount orders u) ∧
    (∀ o ∈ orders, ∀ r ∈ db2.orders, r.id = o.id →
      r.status = o.status ∧ r.accrual = o.accrual) ∧
    db2.withdrawals = db.withdrawals := by
  by_cases hemp : orders.isEmpty = true
  · have hnil : orders = [] := List.isEmpty_iff.mp hemp
    subst hnil
    have h2 : (Except.ok db : Except StorageErr DB) = .ok db2 := h
    cases h2
    refine ⟨fun u => ?_, by simp, rfl⟩
    simp [totalAmount]
  · unfold UpdateBalanceFromOrders at h
    rw [if_neg hemp] at h
    dsimp only at h
    have hbal1 := (updateFold_tables orders db).1
    have hwd1 := (updateFold_tables orders db).2
    have hord1 := updateFold_orders orders db
    have htab := creditLoop_ok_tables (totalAmount orders) (creditUsers orders) _ db2 h
    refine ⟨?_, ?_, htab.2.trans hwd1⟩
    · intro u
      by_cases hu : ∃ o ∈ orders, o.userId = u
      · obtain ⟨b, hb⟩ : ∃ b, db.balances u = some b := by
          obtain ⟨o, ho, rfl⟩ := hu
          exact Option.isSome_iff_exists.mp (hrows o ho)
        have hb1 : (orders.foldl (fun d o => execUpdateOrder d o.status o.accrual o.id)
            db).balances u = some b := by
          rw [hbal1]
          exact hb
        have hmem : u ∈ creditUsers orders := (creditUsers_mem orders u).mpr hu
        have hfin := creditLoop_ok_mem (totalAmount orders) (creditUsers orders)
          (creditUsers_nodup orders) u hmem _ db2 b h hb1
        simp [getUserBalance, hfin, hb]
      · have hnm : u ∉ creditUsers orders := fun hm => hu ((creditUsers_mem orders u).mp hm)
        have hfin := creditLoop_ok_other (totalAmount orders) (creditUsers orders) u hnm
          _ db2 h
        rw [getUserBalance, getUserBalance, hfin, hbal1,
          totalAmount_eq_zero orders u hu, add_zero]
    · intro o ho r hr hid
      rw [htab.1, hord1] at hr
      obtain ⟨r0, hr0, rfl⟩ := List.mem_map.mp hr
      have hrid : r0.id = o.id := by
        rw [← applyUpdates_id orders r0]
        exact hid
      exact applyUpdates_write orders o ho hids r0 hrid

/-- Two Processed orders of user 7 with accruals 100 and 200, as resolved in
one cycle. -/
def settledOrders : List Order :=
  [{ id := 1, userId := 7, status := StatusProcessed, accrual := 100 },
   { id := 2, userId := 7, status := StatusProcessed, accrual := 200 }]

def dbAgg : DB :=
  { orders := [{ id := 1, userId := 7, status := StatusProcessing, accrual := 0 },
               { id := 2, userId := 7, status := StatusProcessing, accrual := 0 }],
    balances := fun u => if u = 7 then some { current := 0, withdrawn := 0 } else none,
    withdrawals := [] }

/-- Witness for `c1_settlement_all_or_nothing`: settling the two orders of
`settledOrders` commits and credits user 7 with their 300-point aggregate. -/
theorem c1_settlement_all_or_nothing_witness :
    ∃ db2, UpdateBalanceFromOrders dbAgg settledOrders = .ok db2 ∧
      (getUserBalance db2 7).current =
        (getUserBalance dbAgg 7).current + totalAmount settledOrders 7 ∧
      totalAmount settledOrders 7 = 300 := by
  have ht : totalAmount settledOrders 7 = 300 := by
    norm_num [totalAmount, settledOrders]
  obtain ⟨db2, hok⟩ := UpdateBalanceFromOrders_exists_ok dbAgg settledOrders (by
    intro u hu b hb
    rw [show creditUsers settledOrders = [7] from rfl] at hu
    have hu7 : u = 7 := by simpa using hu
    subst hu7
    rw [show dbAgg.balances 7 = some { current := 0, withdrawn := 0 } from rfl] at hb
    cases hb
    rw [ht]
    norm_num)
  exact ⟨db2, hok,
    (c1_settlement_all_or_nothing dbAgg settledOrders db2 hok (by decide) (by decide)).1 7,
    ht⟩

/-- C6: the settlement aggregates accrual by user before crediting — each
user with orders in the settled list appears exactly once in the credit
loop's key list and receives a single credit equal to the sum of that user's
listed accruals. -/
theorem c6_single_summed_credit (db : DB) (orders : List Order) (db2 : DB)
    (h : UpdateBalanceFromOrders db orders = .ok db2) (u : Int)
    (hu : ∃ o ∈ orders, o.userId = u) (b : BalanceInfo)
    (hb : db.balances u = some b) :
    (creditUsers orders).count u = 1 ∧
    db2.balances u =
      some { current := b.current + totalAmount orders u, withdrawn := b.withdrawn } := by
  have hne : ¬ orders.isEmpty = true := by
    intro he
    rw [List.isEmpty_iff.mp he] at hu
    obtain ⟨o, ho, -⟩ := hu
    cases ho
  unfold UpdateBalanceFromOrders at h
  rw [if_neg hne] at h
  dsimp only at h
  have hmem : u ∈ creditUsers orders := (creditUsers_mem orders u).mpr hu
  constructor
  · have hle := List.nodup_iff_count_le_one.mp (creditUsers_nodup orders) u
    have hge := List.count_pos_iff.mpr hmem
    omega
  · have hb1 : (orders.foldl (fun d o => execUpdateOrder d o.status o.accrual o.id)
        db).balances u = some b := by
      rw [(updateFold_tables orders db).1]
      exact hb
    exact creditLoop_ok_mem (totalAmount orders) (creditUsers orders)
      (creditUsers_nodup orders) u hmem _ db2 b h hb1

/-- Witness for `c6_single_summed_credit`: one cycle resolving two orders of
user 7 with accruals 100 and 200 issues exactly one credit of 300. -/
theorem c6_single_summed_credit_witness :
    ∃ db2, UpdateBalanceFromOrders dbAgg settledOrders = .ok db2 ∧
      (creditUsers settledOrders).count 7 = 1 ∧
      db2.balances 7 = some { current := 300, withdrawn := 0 } := by
  have ht : totalAmount settledOrders 7 = 300 := by
    norm_num [totalAmount, settledOrders]
  obtain ⟨db2, hok⟩ := UpdateBalanceFromOrders_exists_ok dbAgg settledOrders (by
    intro u hu b hb
    rw [show creditUsers settledOrders = [7] from rfl] at hu
    have hu7 : u = 7 := by simpa using hu
    subst hu7
    rw [show dbAgg.balances 7 = some { current := 0, withdrawn := 0 } from rfl] at hb
    cases hb
    rw [ht]
    norm_num)
  obtain ⟨hc, hbal⟩ := c6_single_summed_credit dbAgg settledOrders db2 hok 7
    ⟨_, List.mem_cons_self _ _, rfl⟩ { current := 0, withdrawn := 0 }
    (by norm_num [dbAgg])
  refine ⟨db2, hok, hc, ?_⟩
  rw [hbal]
  norm_num [ht]

/-! Lemmas about the per-order reconciliation cycle. -/

theorem classifyOrder_id (o : Order) (info : orderInfo) :
    (classifyOrder o info).id = o.id := by
  unfold classifyOrder
  repeat' split
  all_goals rfl

theorem classifyOrder_userId (o : Order) (info : orderInfo) :
    (classifyOrder o info).userId = o.userId := by
  unfold classifyOrder
  repeat' split
  all_goals rfl

theorem classifyOrder_processed_status (o : Order) (info : orderInfo)
    (h : info.status = StatusProcessed) :
    (classifyOrder o info).status = StatusProcessed := by
  simp [classifyOrder, h, StatusRegistered, StatusInvalid, StatusProcessing, StatusProcessed]

theorem classifyOrder_terminal (o : Order) (info : orderInfo)
    (ho : o.status = StatusNew ∨ o.status = StatusProcessing)
    (ht : (classifyOrder o info).status = StatusInvalid ∨
      (classifyOrder o info).status = StatusProcessed) :
    info.status = StatusInvalid ∨ info.status = StatusProcessed := by
  unfold classifyOrder at ht
  by_cases h1 : info.status = StatusRegistered
  · rw [if_pos h1] at ht
    rcases ht with ht | ht
    · exact absurd (show StatusProcessing = StatusInvalid from ht) (by decide)
    · exact absurd (show StatusProcessing = StatusProcessed from ht) (by decide)
  · rw [if_neg h1] at ht
    by_cases h2 : info.status = StatusInvalid
    · exact Or.inl h2
    · rw [if_neg h2] at ht
      by_cases h3 : info.status = StatusProcessing
      · rw [if_pos h3] at ht
        rcases ht with ht | ht
        · exact absurd (show StatusProcessing = StatusInvalid from ht) (by decide)
        · exact absurd (show StatusProcessing = StatusProcessed from ht) (by decide)
      · rw [if_neg h3] at ht
        by_cases h4 : info.status = StatusProcessed
        · exact Or.inr h4
        · rw [if_neg h4] at ht
          rcases ho with ho | ho <;> rw [ho] at ht <;>
            rcases ht with ht | ht <;> exact absurd ht (by decide)

theorem updateOrderStep_none (v : Int → Option orderInfo) (db : DB) (o : Order)
    (hv : v o.id = none) : updateOrderStep v db o = (db, []) := by
  simp [updateOrderStep, hv]

theorem updateOrderStep_fst_orders_some (v : Int → Option orderInfo) (db : DB)
    (o : Order) (info : orderInfo) (hv : v o.id = some info) :
    (updateOrderStep v db o).1.orders = db.orders.map fun r =>
      if r.id = o.id then
        { r with status := (classifyOrder o info).status, accrual := (classifyOrder o info).accrual }
      else r := by
  simp only [updateOrderStep, hv]
  have hid := classifyOrder_id o info
  split
  · cases hA : AddBalance
        (execUpdateOrder db (classifyOrder o info).status (classifyOrder o info).accrual
          (classifyOrder o info).id)
        (classifyOrder o info).userId (classifyOrder o info).accrual with
    | ok dbA =>
        dsimp only
        rw [(execAddBalance_ok_tables _ _ _ _ hA).1]
        show (execUpdateOrder db _ _ _).orders = _
        rw [hid]
        rfl
    | error e =>
        dsimp only
        show (execUpdateOrder db _ _ _).orders = _
        rw [hid]
        rfl
  · show (execUpdateOrder db _ _ _).orders = _
    rw [hid]
    rfl

theorem updateOrderStep_log_entry (v : Int → Option orderInfo) (db : DB) (o : Order)
    (e : Int × Int × Amount) (he : e ∈ (updateOrderStep v db o).2) :
    e.1 = o.id ∧ ∃ info, v o.id = some info ∧ info.status = StatusProcessed := by
  cases hv : v o.id with
  | none =>
      rw [updateOrderStep_none v db o hv] at he
      cases he
  | some info =>
      simp only [updateOrderStep, hv] at he
      by_cases hps : info.status = StatusProcessed
      · rw [if_pos hps] at he
        cases hA : AddBalance
            (execUpdateOrder db (classifyOrder o info).status (classifyOrder o info).accrual
              (classifyOrder o info).id)
            (classifyOrder o info).userId (classifyOrder o info).accrual with
        | ok dbA =>
            rw [hA] at he
            dsimp only at he
            rcases List.mem_singleton.mp he with rfl
            exact ⟨classifyOrder_id o info, info, rfl, hps⟩
        | error err =>
            rw [hA] at he
            cases he
      · rw [if_neg hps] at he
        cases he

theorem updateOrderStep_credit_processed (v : Int → Option orderInfo) (db : DB)
    (o : Order) (e : Int × Int × Amount) (he : e ∈ (updateOrderStep v db o).2) :
    ∀ r2 ∈ (updateOrderStep v db o).1.orders, r2.id = o.id →
      r2.status = StatusProcessed := by
  obtain ⟨-, info, hv, hps⟩ := updateOrderStep_log_entry v db o e he
  intro r2 hr2 hid2
  rw [updateOrderStep_fst_orders_some v db o info hv] at hr2
  obtain ⟨r0, hr0, rfl⟩ := List.mem_map.mp hr2
  by_cases h0 : r0.id = o.id
  · rw [if_pos h0]
    exact classifyOrder_processed_status o info hps
  · rw [if_neg h0] at hid2
    exact absurd hid2 h0

theorem cycleStep_eq (v : Int → Option orderInfo)
    (acc : DB × List (Int × Int × Amount)) (o : Order) :
    cycleStep v acc o =
      ((updateOrderStep v acc.1 o).1, acc.2 ++ (updateOrderStep v acc.1 o).2) := rfl

theorem updateOrderStep_snd_len (v : Int → Option orderInfo) (db : DB) (o : Order) :
    (updateOrderStep v db o).2.length ≤ 1 := by
  cases hv : v o.id with
  | none =>
      rw [updateOrderStep_none v db o hv]
      simp
  | some info =>
      simp only [updateOrderStep, hv]
      split
      · split <;> simp
      · simp

theorem updateOrderStep_ids (v : Int → Option orderInfo) (db : DB) (o : Order) :
    ((updateOrderStep v db o).1.orders.map fun r => r.id) =
      db.orders.map fun r => r.id := by
  cases hv : v o.id with
  | none => rw [updateOrderStep_none v db o hv]
  | some info =>
      rw [updateOrderStep_fst_orders_some v db o info hv, List.map_map]
      apply List.map_congr_left
      intro r _
      show (if r.id = o.id then _ else r).id = r.id
      split <;> rfl

theorem cycleFold_split (v : Int → Option orderInfo) :
    ∀ (os : List Order) (d : DB) (l : List (Int × Int × Amount)),
      os.foldl (cycleStep v) (d, l) =
        ((os.foldl (cycleStep v) (d, [])).1, l ++ (os.foldl (cycleStep v) (d, [])).2) := by
  intro os
  induction os with
  | nil =>
      intro d l
      simp
  | cons o rest ih =>
      intro d l
      rw [List.foldl_cons, List.foldl_cons, cycleStep_eq, cycleStep_eq]
      dsimp only
      rw [ih ((updateOrderStep v d o).1) (l ++ (updateOrderStep v d o).2),
        ih ((updateOrderStep v d o).1) ([] ++ (updateOrderStep v d o).2)]
      simp

theorem cycleFold_ids (v : Int → Option orderInfo) :
    ∀ (os : List Order) (d : DB) (l : List (Int × Int × Amount)),
      (((os.foldl (cycleStep v) (d, l)).1).orders.map fun r => r.id) =
        d.orders.map fun r => r.id := by
  intro os
  induction os with
  | nil =>
      intro d l
      rfl
  | cons o rest ih =>
      intro d l
      rw [List.foldl_cons, cycleStep_eq, ih]
      exact updateOrderStep_ids v d o

theorem cycleFold_preserves_row (v : Int → Option orderInfo) (n : Int) :
    ∀ os : List Order, (∀ o ∈ os, o.id ≠ n ∨ v o.id = none) →
      ∀ (d : DB) (l : List (Int × Int × Amount)) (r : Order),
        r ∈ d.orders → r.id = n → r ∈ ((os.foldl (cycleStep v) (d, l)).1).orders := by
  intro os
  induction os with
  | nil =>
      intro _ d l r hr _
      exact hr
  | cons o rest ih =>
      intro hyp d l r hr hrn
      rw [List.foldl_cons, cycleStep_eq]
      have hmem : r ∈ (updateOrderStep v d o).1.orders := by
        rcases hyp o (List.mem_cons_self _ _) with hne | hnone
        · cases hv : v o.id with
          | none =>
              rw [updateOrderStep_none v d o hv]
              exact hr
          | some info =>
              rw [updateOrderStep_fst_orders_some v d o info hv]
              refine List.mem_map.mpr ⟨r, hr, ?_⟩
              rw [if_neg fun he => hne (he.symm.trans hrn)]
        · rw [updateOrderStep_none v d o hnone]
          exact hr
      exact ih (fun o2 ho2 => hyp o2 (List.mem_cons_of_mem _ ho2)) _ _ r hmem hrn

theorem cycleFold_log_zero (v : Int → Option orderInfo) (n : Int) :
    ∀ os : List Order, (∀ o ∈ os, o.id ≠ n ∨ v o.id = none) →
      ∀ d : DB, ((os.foldl (cycleStep v) (d, [])).2.filter fun e => e.1 == n) = [] := by
  intro os
  induction os with
  | nil =>
      intro _ d
      rfl
  | cons o rest ih =>
      intro hyp d
      rw [List.foldl_cons, cycleStep_eq]
      dsimp only
      rw [cycleFold_split v rest, List.nil_append]
      dsimp only
      rw [List.filter_append]
      have h1 : ((updateOrderStep v d o).2.filter fun e => e.1 == n) = [] := by
        rw [List.filter_eq_nil_iff]
        intro e he
        obtain ⟨he1, info, hvo, -⟩ := updateOrderStep_log_entry v d o e he
        rcases hyp o (List.mem_cons_self _ _) with hne | hnone
        · simp [he1, hne]
        · rw [hvo] at hnone
          cases hnone
      rw [h1, ih (fun o2 ho2 => hyp o2 (List.mem_cons_of_mem _ ho2)) _, List.nil_append]

theorem cycleFold_log_le_one (v : Int → Option orderInfo) (n : Int) :
    ∀ os : List Order, ((os.map fun o => o.id).Nodup) →
      ∀ d : DB,
        ((os.foldl (cycleStep v) (d, [])).2.filter fun e => e.1 == n).length ≤ 1 := by
  intro os
  induction os with
  | nil =>
      intro _ d
      simp
  | cons o rest ih =>
      intro hnd d
      rw [List.map_cons] at hnd
      obtain ⟨hhead, htail⟩ := List.nodup_cons.mp hnd
      rw [List.foldl_cons, cycleStep_eq]
      dsimp only
      rw [cycleFold_split v rest, List.nil_append]
      dsimp only
      rw [List.filter_append, List.length_append]
      by_cases hn : o.id = n
      · have hz := cycleFold_log_zero v n rest
          (fun o2 ho2 => Or.inl fun he2 => hhead (by
            rw [hn, ← he2]
            exact List.mem_map_of_mem (fun r => r.id) ho2))
          ((updateOrderStep v d o).1)
        rw [hz]
        have hlen : ((updateOrderStep v d o).2.filter fun e => e.1 == n).length ≤ 1 :=
          le_trans (List.length_filter_le _ _) (updateOrderStep_snd_len v d o)
        simpa using hlen
      · have h1 : ((updateOrderStep v d o).2.filter fun e => e.1 == n) = [] := by
          rw [List.filter_eq_nil_iff]
          intro e he
          obtain ⟨he1, -⟩ := updateOrderStep_log_entry v d o e he
          simp [he1, hn]
        rw [h1]
        simpa using ih htail _

theorem cycleFold_keeps_processed (v : Int → Option orderInfo) (n : Int) :
    ∀ os : List Order, (∀ o ∈ os, o.id ≠ n) →
      ∀ (d : DB) (l : List (Int × Int × Amount)),
        (∀ r ∈ d.orders, r.id = n → r.status = StatusProcessed) →
        ∀ r ∈ ((os.foldl (cycleStep v) (d, l)).1).orders, r.id = n →
          r.status = StatusProcessed := by
  intro os
  induction os with
  | nil =>
      intro _ d l hP r hr
      exact hP r hr
  | cons o rest ih =>
      intro hyp d l hP
      rw [List.foldl_cons, cycleStep_eq]
      apply ih (fun o2 ho2 => hyp o2 (List.mem_cons_of_mem _ ho2))
      intro r hr hrn
      cases hv : v o.id with
      | none =>
          rw [updateOrderStep_none v d o hv] at hr
          exact hP r hr hrn
      | some info =>
          rw [updateOrderStep_fst_orders_some v d o info hv] at hr
          obtain ⟨r0, hr0, rfl⟩ := List.mem_map.mp hr
          by_cases h0 : r0.id = o.id
          · rw [if_pos h0] at hrn ⊢
            exact absurd (show r0.id = n from hrn)
              (h0 ▸ hyp o (List.mem_cons_self _ _))
          · rw [if_neg h0] at hrn ⊢
            exact hP r0 hr0 hrn

theorem cycleFold_credited_processed (v : Int → Option orderInfo) (n : Int) :
    ∀ os : List Order, ((os.map fun o => o.id).Nodup) →
      ∀ d : DB, (∃ e ∈ (os.foldl (cycleStep v) (d, [])).2, e.1 = n) →
        ∀ r ∈ ((os.foldl (cycleStep v) (d, [])).1).orders, r.id = n →
          r.status = StatusProcessed := by
  intro os
  induction os with
  | nil =>
      rintro _ d ⟨e, he, -⟩
      cases he
  | cons o rest ih =>
      intro hnd d hex
      rw [List.map_cons] at hnd
      obtain ⟨hhead, htail⟩ := List.nodup_cons.mp hnd
      obtain ⟨e, he, hen⟩ := hex
      rw [List.foldl_cons, cycleStep_eq] at he ⊢
      dsimp only at he ⊢
      rw [cycleFold_split v rest, List.nil_append] at he ⊢
      dsimp only at he ⊢
      rcases List.mem_append.mp he with heStep | heTail
      · have he1 := (updateOrderStep_log_entry v d o e heStep).1
        have hon : o.id = n := he1 ▸ hen
        have hbase := updateOrderStep_credit_processed v d o e heStep
        intro r hr hrn
        refine cycleFold_keeps_processed v n rest
          (fun o2 ho2 he2 => hhead (by
            rw [hon, ← he2]
            exact List.mem_map_of_mem (fun r => r.id) ho2))
          ((updateOrderStep v d o).1) [] ?_ r hr hrn
        intro r2 hr2 hr2n
        exact hbase r2 hr2 (hr2n.trans hon.symm)
      · intro r hr hrn
        exact ih htail ((updateOrderStep v d o).1) ⟨e, heTail, hen⟩ r hr hrn

theorem cycleFold_terminal_invariant (v : Int → Option orderInfo) (P : Int → Prop)
    (hP : ∀ (o : Order) (info : orderInfo), v o.id = some info →
      info.status = StatusInvalid ∨ info.status = StatusProcessed → P o.id) :
    ∀ os : List Order, (∀ o ∈ os, o.status = StatusNew ∨ o.status = StatusProcessing) →
      ∀ (d : DB) (l : List (Int × Int × Amount)),
        (∀ r ∈ d.orders, r.status = StatusInvalid ∨ r.status = StatusProcessed → P r.id) →
        ∀ r ∈ ((os.foldl (cycleStep v) (d, l)).1).orders,
          r.status = StatusInvalid ∨ r.status = StatusProcessed → P r.id := by
  intro os
  induction os with
  | nil =>
      intro _ d l hbase r hr ht
      exact hbase r hr ht
  | cons o rest ih =>
      intro hos d l hbase
      rw [List.foldl_cons, cycleStep_eq]
      apply ih (fun o2 ho2 => hos o2 (List.mem_cons_of_mem _ ho2))
      intro r hr ht
      cases hv : v o.id with
      | none =>
          rw [updateOrderStep_none v d o hv] at hr
          exact hbase r hr ht
      | some info =>
          rw [updateOrderStep_fst_orders_some v d o info hv] at hr
          obtain ⟨r0, hr0, rfl⟩ := List.mem_map.mp hr
          by_cases h0 : r0.id = o.id
          · rw [if_pos h0] at ht ⊢
            have hterm2 : (classifyOrder o info).status = StatusInvalid ∨
                (classifyOrder o info).status = StatusProcessed := ht
            have hinfo := classifyOrder_terminal o info
              (hos o (List.mem_cons_self _ _)) hterm2
            show P r0.id
            rw [h0]
            exact hP o info hv hinfo
          · rw [if_neg h0] at ht ⊢
            exact hbase r0 hr0 ht

theorem mem_unfinished (db : DB) (o : Order) (ho : o ∈ GetUnfinishedOrders db) :
    o ∈ db.orders ∧ (o.status = StatusNew ∨ o.status = StatusProcessing) := by
  rw [GetUnfinishedOrders, List.mem_filter] at ho
  refine ⟨ho.1, ?_⟩
  rcases Bool.or_eq_true_iff.mp ho.2 with h | h
  · exact Or.inl (eq_of_beq h)
  · exact Or.inr (eq_of_beq h)

theorem unfinished_ids_nodup (db : DB)
    (h : (db.orders.map fun r => r.id).Nodup) :
    ((GetUnfinishedOrders db).map fun r => r.id).Nodup :=
  List.Nodup.sublist (List.Sublist.map _ (List.filter_sublist _)) h

theorem update_orders_ids (db : DB) (v : Int → Option orderInfo) :
    ((update db v).orders.map fun r => r.id) = db.orders.map fun r => r.id :=
  cycleFold_ids v (GetUnfinishedOrders db) db []

/-- C3: a terminal (Invalid or Processed) order row is invisible to the
unfinished-orders query, survives any reconciliation cycle unchanged, and is
never credited in that cycle or in a second cycle run on the resulting
state; moreover, across two consecutive cycles every order number receives
at most one committed balance credit, which is what makes re-running a cycle
with the same authority responses credit each user at most once per
order. -/
theorem c3_terminal_orders_frozen (db : DB) (verdict verdict2 : Int → Option orderInfo)
    (hids : (db.orders.map fun r => r.id).Nodup)
    (r : Order) (hr : r ∈ db.orders)
    (hterm : r.status = StatusInvalid ∨ r.status = StatusProcessed) (n : Int) :
    r ∉ GetUnfinishedOrders db ∧
    r ∈ (update db verdict).orders ∧
    (((updateLog db verdict).2 ++
        (updateLog (update db verdict) verdict2).2).filter
      fun e => e.1 == r.id) = [] ∧
    (((updateLog db verdict).2 ++
        (updateLog (update db verdict) verdict2).2).filter
      fun e => e.1 == n).length ≤ 1 := by
  have hnotunf : r ∉ GetUnfinishedOrders db := by
    intro hmem
    rw [GetUnfinishedOrders, List.mem_filter] at hmem
    rcases hterm with h | h <;> rw [h] at hmem <;> exact absurd hmem.2 (by decide)
  have honot : ∀ o ∈ GetUnfinishedOrders db, o.id ≠ r.id := by
    intro o ho he
    have ho1 := (mem_unfinished db o ho).1
    have : o = r := List.inj_on_of_nodup_map hids ho1 hr he
    rw [this] at ho
    exact hnotunf ho
  have hosnd := unfinished_ids_nodup db hids
  have hids1 : ((update db verdict).orders.map fun r => r.id).Nodup := by
    rw [update_orders_ids]
    exact hids
  have hosnd2 := unfinished_ids_nodup (update db verdict) hids1
  have hmem1 : r ∈ (update db verdict).orders :=
    cycleFold_preserves_row verdict r.id _ (fun o ho => Or.inl (honot o ho)) db [] r hr rfl
  have honot2 : ∀ o ∈ GetUnfinishedOrders (update db verdict), o.id ≠ r.id := by
    intro o ho he
    obtain ⟨ho1, hstat⟩ := mem_unfinished _ o ho
    have : o = r := List.inj_on_of_nodup_map hids1 ho1 hmem1 he
    subst this
    rcases hterm with h | h <;> rcases hstat with h2 | h2 <;>
      exact absurd (h.symm.trans h2) (by decide)
  have hz1 : ((updateLog db verdict).2.filter fun e => e.1 == r.id) = [] :=
    cycleFold_log_zero verdict r.id _ (fun o ho => Or.inl (honot o ho)) db
  have hz2 : ((updateLog (update db verdict) verdict2).2.filter
      fun e => e.1 == r.id) = [] :=
    cycleFold_log_zero verdict2 r.id _ (fun o ho => Or.inl (honot2 o ho)) _
  refine ⟨hnotunf, hmem1, ?_, ?_⟩
  · rw [List.filter_append, hz1, hz2, List.nil_append]
  · rw [List.filter_append, List.length_append]
    by_cases hc : ((updateLog db verdict).2.filter fun e => e.1 == n) = []
    · rw [hc]
      simpa using cycleFold_log_le_one verdict2 n _ hosnd2 (update db verdict)
    · obtain ⟨e, hef⟩ := List.exists_mem_of_ne_nil _ hc
      obtain ⟨he1, he2⟩ := List.mem_filter.mp hef
      have hen : e.1 = n := eq_of_beq he2
      have hproc := cycleFold_credited_processed verdict n _ hosnd db ⟨e, he1, hen⟩
      have honotn : ∀ o ∈ GetUnfinishedOrders (update db verdict), o.id ≠ n := by
        intro o ho he
        obtain ⟨ho1, hstat⟩ := mem_unfinished _ o ho
        have hps : o.status = StatusProcessed := hproc o ho1 he
        rcases hstat with h2 | h2 <;> exact absurd (hps.symm.trans h2) (by decide)
      have hz2n : ((updateLog (update db verdict) verdict2).2.filter
          fun e => e.1 == n) = [] :=
        cycleFold_log_zero verdict2 n _ (fun o ho => Or.inl (honotn o ho)) _
      rw [hz2n]
      simpa using cycleFold_log_le_one verdict n _ hosnd db
  -- end c3

/-- Processed order 5 of user 7 already credited. -/
def orderDone : Order := { id := 5, userId := 7, status := StatusProcessed, accrual := 500 }

def dbDone : DB :=
  { orders := [orderDone],
    balances := fun u => if u = 7 then some { current := 500, withdrawn := 0 } else none,
    withdrawals := [] }

/-- Witness for `c3_terminal_orders_frozen`: the Processed order 5 is not in
the unfinished set, survives a cycle against a PROCESSED verdict unchanged,
is never re-credited, and order number 5 is credited at most once over two
cycles. -/
theorem c3_terminal_orders_frozen_witness :
    orderDone ∉ GetUnfinishedOrders dbDone ∧
    orderDone ∈ (update dbDone fun _ => some infoProcessed).orders ∧
    (((updateLog dbDone fun _ => some infoProcessed).2 ++
        (updateLog (update dbDone fun _ => some infoProcessed)
          fun _ => some infoProcessed).2).filter
      fun e => e.1 == orderDone.id) = [] ∧
    (((updateLog dbDone fun _ => some infoProcessed).2 ++
        (updateLog (update dbDone fun _ => some infoProcessed)
          fun _ => some infoProcessed).2).filter
      fun e => e.1 == 5).length ≤ 1 :=
  c3_terminal_orders_frozen dbDone (fun _ => some infoProcessed)
    (fun _ => some infoProcessed) (by decide) orderDone (List.mem_cons_self _ _)
    (Or.inr rfl) 5

/-- C9: an order whose verdict query failed is excluded from the cycle's
settlement entirely — its row survives the cycle unchanged (it stays
Pending/Processing) and it receives no balance credit — and no error can
move any order to a terminal state: every terminal row after a cycle either
was terminal before it or has a successfully obtained verdict whose status
is INVALID or PROCESSED. -/
theorem c9_failed_verdict_excluded (db : DB) (verdict : Int → Option orderInfo)
    (r : Order) (hr : r ∈ db.orders) (hfail : verdict r.id = none) :
    r ∈ (update db verdict).orders ∧
    ((updateLog db verdict).2.filter fun e => e.1 == r.id) = [] ∧
    (∀ r2 ∈ (update db verdict).orders,
      r2.status = StatusInvalid ∨ r2.status = StatusProcessed →
      (∃ r0 ∈ db.orders, r0.id = r2.id ∧
        (r0.status = StatusInvalid ∨ r0.status = StatusProcessed)) ∨
      ∃ info, verdict r2.id = some info ∧
        (info.status = StatusInvalid ∨ info.status = StatusProcessed)) := by
  have hyp : ∀ o ∈ GetUnfinishedOrders db, o.id ≠ r.id ∨ verdict o.id = none := by
    intro o ho
    by_cases he : o.id = r.id
    · exact Or.inr (he ▸ hfail)
    · exact Or.inl he
  refine ⟨?_, ?_, ?_⟩
  · exact cycleFold_preserves_row verdict r.id _ hyp db [] r hr rfl
  · exact cycleFold_log_zero verdict r.id _ hyp db
  · intro r2 hr2 hterm2
    exact cycleFold_terminal_invariant verdict
      (fun m => (∃ r0 ∈ db.orders, r0.id = m ∧
          (r0.status = StatusInvalid ∨ r0.status = StatusProcessed)) ∨
        ∃ info, verdict m = some info ∧
          (info.status = StatusInvalid ∨ info.status = StatusProcessed))
      (fun o info hv ht => Or.inr ⟨info, hv, ht⟩)
      _ (fun o ho => (mem_unfinished db o ho).2) db []
      (fun r0 hr0 ht0 => Or.inl ⟨r0, hr0, rfl, ht0⟩)
      r2 hr2 hterm2

/-- Witness for `c9_failed_verdict_excluded`: when every verdict query fails,
the NEW order 1 survives the cycle unchanged and gets no credit. -/
theorem c9_failed_verdict_excluded_witness :
    orderNeg ∈ (update dbPerOrder fun _ => none).orders ∧
    ((updateLog dbPerOrder fun _ => none).2.filter
      fun e => e.1 == orderNeg.id) = [] :=
  ⟨(c9_failed_verdict_excluded dbPerOrder (fun _ => none) orderNeg
      (List.mem_cons_self _ _) rfl).1,
   (c9_failed_verdict_excluded dbPerOrder (fun _ => none) orderNeg
      (List.mem_cons_self _ _) rfl).2.1⟩

end Gophermart
